import Mathlib

/-!
Shallow embedding of the MPU9225 accelerometer streaming driver
(`mpu9225stream.py` together with its startup script `main.py`), and
theorems checking the documented properties of that code.

Python integers are unbounded, so register values and intermediate
arithmetic are modelled with `Int` (bitwise operations use `Int.land`,
`Int.lor`, `Int.lnot`, which match Python's `&`, `|`, `~` on arbitrary
integers); register addresses and counters are `Nat`.  Stateful code is
modelled by explicit state passing; code that can raise returns `Except`.
-/

namespace Mpu9225

/-! ### Constants from the source module -/

/-- I2C address of the accelerometer (`AX_ADDR = const(104)`). -/
def AX_ADDR : Nat := 104

/-- Register address `PWR_MGMT_1 = const(0x6b)`. -/
def PWR_MGMT_1 : Nat := 0x6b

/-- Bitmask `PWR_MGMT_1_CLKSEL_MASK = const(0x7)`. -/
def PWR_MGMT_1_CLKSEL_MASK : Int := 0x7

/-- Bitmask `PWR_MGMT_1_SLEEP_MASK = const(0x40)`. -/
def PWR_MGMT_1_SLEEP_MASK : Int := 0x40

/-- Register address `ACCEL_CONFIG = const(0x1c)`. -/
def ACCEL_CONFIG : Nat := 0x1c

/-- Bitmask `ACCEL_FS_SEL_MASK = const(0x18)`. -/
def ACCEL_FS_SEL_MASK : Int := 0x18

/-- The dictionary
`FULL_SCALE = {2: 0 << 3, 4: 1 << 3, 8: 2 << 3, 16: 3 << 3}`.
A lookup `FULL_SCALE[g]` for a key outside the dictionary raises `KeyError`
in Python; that is modelled by `none`. -/
def FULL_SCALE : Int → Option Int
  | 2 => some (0 <<< (3 : Nat))
  | 4 => some (1 <<< (3 : Nat))
  | 8 => some (2 <<< (3 : Nat))
  | 16 => some (3 <<< (3 : Nat))
  | _ => none

/-! ### Sample codec: `twos_complement` -/

/-- `twos_complement(val, num_bits)` from the source:
```
mask = 2 ** (num_bits - 1)
twos_comp = -(val & mask) + (val & ~mask)
return twos_comp
```
Python `&` and `~` on unbounded integers are `Int.land` and `Int.lnot`. -/
def twos_complement (val : Int) (num_bits : Nat) : Int :=
  let mask : Int := 2 ^ (num_bits - 1);
  -(Int.land val mask) + Int.land val (Int.lnot mask)

/-! ### Register access layer over an explicit device state

The transport primitives `i2c().send` / `i2c().recv` exchange bytes with
the device; at the register level the observable effects are reads and
writes of device registers.  The device is modelled as a register file
`regs : Nat → Int` (on the hardware each register holds one byte) plus a
trace of the register operations issued, in order.  The retry layer
(`ax_send`) is modelled separately below; here each transport operation is
taken to succeed. -/

/-- One observable register-level bus operation. -/
inductive Event where
  | read  (reg : Nat)
  | write (reg : Nat) (val : Int)
  deriving DecidableEq, Repr

/-- Device registers plus the ordered trace of issued operations. -/
structure AxState where
  regs  : Nat → Int
  trace : List Event

/-- `ax_read(reg, convert=True)`: sends the register address, receives one
byte and converts it to an integer.  Returns the register's current value
and appends a read event. -/
def ax_read (s : AxState) (reg : Nat) : Int × AxState :=
  (s.regs reg, ⟨s.regs, s.trace ++ [Event.read reg]⟩)

/-- `ax_write(reg, value)`: sends `bytearray([reg, value])`, which the
device latches as a write of `value` into register `reg`. -/
def ax_write (s : AxState) (reg : Nat) (value : Int) : AxState :=
  ⟨fun r => if r = reg then value else s.regs r,
   s.trace ++ [Event.write reg value]⟩

/-- `ax_write_masked(reg, value, bitmask, read_after=False)` from the source:
```
masked_val = value & bitmask
old_val = ax_read(reg, convert=True)
reg_val = (old_val & ~bitmask) | masked_val
ax_write(reg, reg_val)
return ax_read(reg, convert=True) if read_after else None
``` -/
def ax_write_masked (s : AxState) (reg : Nat) (value bitmask : Int)
    (read_after : Bool) : Option Int × AxState :=
  let masked_val := Int.land value bitmask
  let (old_val, s1) := ax_read s reg
  let reg_val := Int.lor (Int.land old_val (Int.lnot bitmask)) masked_val
  let s2 := ax_write s1 reg reg_val
  if read_after then
    let (res, s3) := ax_read s2 reg
    (some res, s3)
  else
    (none, s2)

/-- `ax_read_double(addr_h, addr_l, as_list=False)` from the source:
```
res_h = ax_read(addr_h, convert=True)
res_l = ax_read(addr_l, convert=True)
if as_list:
    return [res_h, res_l]
else:
    return res_h * 256 + res_l
```
The untyped "list or int" return shape is modelled as a sum. -/
def ax_read_double (s : AxState) (addr_h addr_l : Nat) (as_list : Bool) :
    (List Int ⊕ Int) × AxState :=
  let (res_h, s1) := ax_read s addr_h
  let (res_l, s2) := ax_read s1 addr_l
  (if as_list then Sum.inl [res_h, res_l] else Sum.inr (res_h * 256 + res_l), s2)

/-- The configuration phase of `init_accelerometer` (source lines 136-143),
entered once the device-discovery loop (lines 121-134) has finished; that
loop issues only `scan`/`is_ready` transport queries and no register
operation.  The phase is:
```
ax_write_masked(reg=PWR_MGMT_1, value=1, bitmask=PWR_MGMT_1_CLKSEL_MASK)
ax_write_masked(reg=ACCEL_CONFIG, value=FULL_SCALE[FULL_SCALE_CHOICE], bitmask=ACCEL_FS_SEL_MASK)
ax_write_masked(reg=PWR_MGMT_1, value=0, bitmask=PWR_MGMT_1_SLEEP_MASK)
```
`FULL_SCALE[FULL_SCALE_CHOICE]` is evaluated when the second call's
arguments are built, i.e. after the first masked write has completed; a
missing key raises `KeyError` there, which propagates.  The error payload
is the device state at the moment of the raise. -/
def init_accelerometer_config (full_scale_choice : Int) (s : AxState) :
    Except AxState AxState :=
  let s1 := (ax_write_masked s PWR_MGMT_1 1 PWR_MGMT_1_CLKSEL_MASK false).2
  match FULL_SCALE full_scale_choice with
  | none => Except.error s1
  | some fsval =>
    let s2 := (ax_write_masked s1 ACCEL_CONFIG fsval ACCEL_FS_SEL_MASK false).2
    let s3 := (ax_write_masked s2 PWR_MGMT_1 0 PWR_MGMT_1_SLEEP_MASK false).2
    Except.ok s3

/-- Whether an `Except` is the error case. -/
def isError : Except AxState AxState → Bool
  | Except.error _ => true
  | Except.ok _ => false

/-- The trace carried by either side of an `Except AxState AxState`. -/
def resultTrace : Except AxState AxState → List Event
  | Except.error s => s.trace
  | Except.ok s => s.trace

/-- A device state with all registers zero and an empty trace. -/
def axInit : AxState := ⟨fun _ => 0, []⟩

/-! ### Transport handle: module-level I2C state

The source keeps two module globals:
```
_i2c_object = None
_i2c_default_bus = 1
def i2c(bus_no: int=_i2c_default_bus, baudrate: int=400000) -> I2C: ...
def set_i2c_bus(bus_no: int) -> None: ...
```
A handle is identified here by the bus number it was constructed with. -/

/-- The module globals `_i2c_default_bus` and `_i2c_object`. -/
structure I2CModule where
  i2c_default_bus : Int
  i2c_object : Option Int
  deriving DecidableEq, Repr

/-- State of the module right after `import`: `_i2c_object = None`,
`_i2c_default_bus = 1`. -/
def moduleInit : I2CModule := ⟨1, none⟩

/-- The default value of the parameter `bus_no` of `i2c`.  Python evaluates
a default parameter expression once, when the `def` statement executes,
i.e. at module import time, when `_i2c_default_bus` is `1`.  Later
assignments to the global `_i2c_default_bus` do not change this default. -/
def i2c_default_arg : Int := 1

/-- A call `i2c(bus_no)` with an explicit argument: return the existing
handle, or construct one on `bus_no` if none exists yet. -/
def i2c_call (s : I2CModule) (bus_no : Int) : Int × I2CModule :=
  match s.i2c_object with
  | some b => (b, s)
  | none => (bus_no, ⟨s.i2c_default_bus, some bus_no⟩)

/-- A call `i2c()` with no argument, as issued by every transport operation
in the module: the frozen default `i2c_default_arg` is used for `bus_no`. -/
def i2c_noarg (s : I2CModule) : Int × I2CModule :=
  i2c_call s i2c_default_arg

/-- `set_i2c_bus(bus_no)`: assigns the global `_i2c_default_bus`. -/
def set_i2c_bus (bus_no : Int) (s : I2CModule) : I2CModule :=
  ⟨bus_no, s.i2c_object⟩

/-! ### Retry layer: `ax_send`

```
def ax_send(data: int, max_attempts: int=10) -> None:
    attempts = 0
    while attempts < max_attempts:
        try:
            i2c().send(data, addr=AX_ADDR)
            return
        except OSError:
            pyb.delay(0.5 * 2 ** attempts)
            attempts += 1
    raise OSError("Failed to send")
```
The transport is an oracle giving the outcome of the i-th `send` attempt.
The delay values `0.5 * 2 ** attempts` are dyadic rationals (exact in the
source's arithmetic for the attempt counts that occur), modelled in `ℚ`.
The observable behaviour is: whether the call returns or raises `OSError`,
how many transport attempts were made, and the delays slept in order. -/

/-- The literal `0.5` in `pyb.delay(0.5 * 2 ** attempts)`. -/
def base_delay : ℚ := 1 / 2

/-- Observable outcome of `ax_send`: `ok = false` means the trailing
`raise OSError("Failed to send")` was reached; `calls` counts transport
attempts; `delays` lists the backoff delays slept, in order. -/
structure SendResult where
  ok : Bool
  calls : Nat
  delays : List ℚ
  deriving DecidableEq, Repr

/-- The `while attempts < max_attempts` loop of `ax_send`, starting from a
given value of the `attempts` counter. -/
def ax_send_loop (transport : Nat → Bool) (max_attempts attempts : Nat) :
    SendResult :=
  if attempts < max_attempts then
    if transport attempts then
      ⟨true, 1, []⟩
    else
      let r := ax_send_loop transport max_attempts (attempts + 1)
      ⟨r.ok, r.calls + 1, base_delay * 2 ^ attempts :: r.delays⟩
  else
    ⟨false, 0, []⟩
termination_by max_attempts - attempts

/-- `ax_send(data, max_attempts)`: the loop starts at `attempts = 0`. -/
def ax_send (transport : Nat → Bool) (max_attempts : Nat := 10) : SendResult :=
  ax_send_loop transport max_attempts 0

/-! ### Sampler: `read_buf`

```
def read_buf(number_of_samples, sample_period, prev_t=0) -> array:
    buf = array.array('i')
    for i in range(number_of_samples):
        t = utime.ticks_us()
        if utime.ticks_diff(t, prev_t) < sample_period:
            continue
        prev_t = t
        buf.append(t)
        buf.append(ax_x())
        buf.append(ax_y())
        buf.append(ax_z())
    return buf, t
```
`utime.ticks_us()` is a wrapping microsecond counter; successive call
results are an oracle `ticks`.  Each of `ax_x()/ax_y()/ax_z()` performs a
double-register read of a time-varying hardware register pair and decodes
and scales it; the successive results of these axis reads are an oracle
`axis`, indexed by axis-read call order (three reads per captured sample).
The local variable `t` starts unassigned; returning with `t` unassigned
raises `UnboundLocalError` in Python. -/

/-- Oracles for the sampler's environment. -/
structure Env where
  ticks : Nat → Nat
  axis : Nat → Int

/-- On the pyboard the `utime.ticks_*` counters wrap modulo `2 ^ 30`. -/
def TICKS_PERIOD : Nat := 2 ^ 30

/-- `utime.ticks_diff(new, old)`: wraparound-safe signed difference, in
`[-TICKS_PERIOD/2, TICKS_PERIOD/2)`. -/
def ticks_diff (new old : Nat) : Int :=
  ((new : Int) - (old : Int) + TICKS_PERIOD / 2) % TICKS_PERIOD - TICKS_PERIOD / 2

/-- Python errors that the sampler can raise. -/
inductive PyErr where
  | unboundLocalError
  deriving DecidableEq, Repr

/-- Local state of one execution of `read_buf`'s loop: the `prev_t`
variable, how many `ticks_us` calls and axis reads have happened, the
buffer contents, and the loop-local `t` (`none` while unassigned). -/
structure RBState where
  prev_t : Nat
  nTick : Nat
  nAx : Nat
  buf : List Int
  t : Option Nat

/-- One iteration of `for i in range(number_of_samples)`:
read the clock; if `ticks_diff(t, prev_t) < sample_period` then `continue`
(the iteration is consumed and nothing is captured), otherwise capture a
quadruple `t, ax_x(), ax_y(), ax_z()`. -/
def read_buf_step (env : Env) (sample_period : Int) (s : RBState) : RBState :=
  let t := env.ticks s.nTick
  let s' : RBState := ⟨s.prev_t, s.nTick + 1, s.nAx, s.buf, some t⟩
  if ticks_diff t s.prev_t < sample_period then
    s'
  else
    ⟨t, s'.nTick, s.nAx + 3,
     s.buf ++ [(t : Int), env.axis s.nAx, env.axis (s.nAx + 1), env.axis (s.nAx + 2)],
     some t⟩

/-- The `for` loop run for a given number of iterations. -/
def read_buf_iter (env : Env) (sample_period : Int) : Nat → RBState → RBState
  | 0, s => s
  | n + 1, s => read_buf_iter env sample_period n (read_buf_step env sample_period s)

/-- The state at entry of `read_buf`: `prev_t` from the argument, empty
buffer, `t` unassigned. -/
def read_buf_init (prev_t : Nat) : RBState := ⟨prev_t, 0, 0, [], none⟩

/-- `read_buf(number_of_samples, sample_period, prev_t)`: run the loop,
then `return buf, t`; if `t` was never assigned the return raises. -/
def read_buf (env : Env) (number_of_samples : Nat) (sample_period : Int)
    (prev_t : Nat) : Except PyErr (List Int × Nat) :=
  let s := read_buf_iter env sample_period number_of_samples (read_buf_init prev_t)
  match s.t with
  | some t => Except.ok (s.buf, t)
  | none => Except.error PyErr.unboundLocalError

/-- The four buffer entries contributed by one captured sample: the
timestamp followed by the three axis reads issued at that point. -/
def quadOf (env : Env) (q : Nat × Nat) : List Int :=
  [(q.1 : Int), env.axis q.2, env.axis (q.2 + 1), env.axis (q.2 + 2)]

/-! ### Concrete instances used to exercise the definitions -/

/-- A transport that fails on attempts 0 and 1 and succeeds on attempt 2. -/
def trW : Nat → Bool := fun i => decide (i = 2)

/-- A transport that fails on every attempt. -/
def trF : Nat → Bool := fun _ => false

/-- A clock that reads 500 on every call (axis reads all zero). -/
def envC4 : Env := ⟨fun _ => 500, fun _ => 0⟩

/-- A clock advancing 1000 microseconds per call, starting at 1000; every
axis read returns 7. -/
def envW : Env := ⟨fun i => 1000 * (i + 1), fun _ => 7⟩

/-- A device whose registers all read 170 (`0b10101010`), empty trace. -/
def axW : AxState := ⟨fun _ => 170, []⟩

/-! ## Theorems -/

/-! ### Helper lemmas -/

/-- `Nat.ldiff` as an xor/and combination (both kernel-computable). -/
theorem nat_ldiff_eq_xor_land (a b : Nat) : Nat.ldiff a b = a ^^^ (a &&& b) := by
  apply Nat.eq_of_testBit_eq
  intro i
  rw [Nat.testBit_ldiff, Nat.testBit_xor, Nat.testBit_land]
  cases a.testBit i <;> cases b.testBit i <;> rfl

/-- Python `a & b` on two nonnegative integers is `Nat.land`. -/
theorem int_land_coe_coe (a b : Nat) :
    Int.land (a : Int) (b : Int) = ((a &&& b : Nat) : Int) := rfl

/-- Python `a & ~b` on two nonnegative integers clears the bits of `b`,
which on naturals is `Nat.ldiff`. -/
theorem int_land_coe_lnot (a b : Nat) :
    Int.land (a : Int) (Int.lnot (b : Int)) = ((Nat.ldiff a b : Nat) : Int) := rfl

/-- The value written by the clock-source masked write when the register
previously read 0: `(0 & ~7) | (1 & 7) = 1`. -/
theorem clksel_write_val :
    Int.lor (Int.land 0 (Int.lnot 7)) (Int.land 1 7) = 1 := by
  rw [show Int.land 0 (Int.lnot 7) = ((Nat.ldiff 0 7 : Nat) : Int) from rfl,
    nat_ldiff_eq_xor_land]
  decide

/-- Trace of a masked write with `read_after=False`: one register read
followed by one register write of the combined value. -/
theorem ax_write_masked_trace (s : AxState) (reg : Nat) (value bitmask : Int) :
    (ax_write_masked s reg value bitmask false).2.trace =
      s.trace ++ [Event.read reg,
        Event.write reg
          (Int.lor (Int.land (s.regs reg) (Int.lnot bitmask)) (Int.land value bitmask))] := by
  simp [ax_write_masked, ax_read, ax_write]

/-- Claim C8: for all byte values high and low returned by the device, the
double-register read (`ax_read_double`) returns `high*256 + low` in its
combined form and the ordered pair `[high, low]` in its list form, and it
issues the read of the high register before the read of the low register. -/
theorem ax_read_double_claim (s : AxState) (addr_h addr_l : Nat) :
    (ax_read_double s addr_h addr_l false).1 =
      Sum.inr (s.regs addr_h * 256 + s.regs addr_l) ∧
    (ax_read_double s addr_h addr_l true).1 =
      Sum.inl [s.regs addr_h, s.regs addr_l] ∧
    ∀ as_list : Bool, (ax_read_double s addr_h addr_l as_list).2.trace =
      s.trace ++ [Event.read addr_h, Event.read addr_l] := by
  refine ⟨rfl, rfl, fun as_list => ?_⟩
  simp [ax_read_double, ax_read]

/-- Claim C10: for `number_of_samples = 0` and any `sample_period` and
`prev_t`, `read_buf` never returns a `(buffer, last_timestamp)` pair: the
loop body does not execute (the entry state is returned unchanged, so the
local `t` is never assigned) and the final `return buf, t` raises. -/
theorem read_buf_zero_claim (env : Env) (sample_period : Int) (prev_t : Nat) :
    read_buf env 0 sample_period prev_t = Except.error PyErr.unboundLocalError ∧
    read_buf_iter env sample_period 0 (read_buf_init prev_t) = read_buf_init prev_t ∧
    (read_buf_init prev_t).t = none := by
  exact ⟨rfl, rfl, rfl⟩

/-- Claim C4 evaluated at a failing input (the claim itself is wrong about
the code): with `number_of_samples = 1`, `sample_period = 1000`,
`prev_t = 0` and a clock reading 500, the period check makes the single
loop iteration `continue`, which consumes the iteration instead of
re-trying it; the call completes with an empty buffer (zero quadruples,
not one) and `last_timestamp = 500`, which is not an entry of the buffer. -/
theorem read_buf_undercount_eval :
    read_buf envC4 1 1000 0 = Except.ok ([], 500) := by
  rfl

/-- Claim C7 evaluated at a failing input (the claim is right, the code has
a bug): `set_i2c_bus(2)` is called strictly before the first `i2c()` call,
yet the handle is constructed on bus 1, because the default value of the
`bus_no` parameter of `i2c` was evaluated once at function-definition time
from `_i2c_default_bus = 1`, so later `set_i2c_bus` calls never reach it. -/
theorem set_i2c_bus_bug_eval :
    (set_i2c_bus 2 moduleInit).i2c_default_bus = 2 ∧
    (set_i2c_bus 2 moduleInit).i2c_object = none ∧
    (i2c_noarg (set_i2c_bus 2 moduleInit)).2.i2c_object = some 1 ∧
    (i2c_noarg (set_i2c_bus 2 moduleInit)).2.i2c_object ≠ some 2 := by
  decide

/-- Claim C6 counterexample: with the invalid full-scale value 3, the
`KeyError` from the `FULL_SCALE` lookup is raised only at the second
configuration step, and by then a register write (the clock-source masked
write to `PWR_MGMT_1`) has already been issued — the trace at the moment
of the raise contains a write event, contradicting the claim that no
register write occurs before the rejection. -/
theorem init_full_scale_counterexample :
    isError (init_accelerometer_config 3 axInit) = true ∧
    resultTrace (init_accelerometer_config 3 axInit) =
      [Event.read PWR_MGMT_1, Event.write PWR_MGMT_1 1] := by
  refine ⟨rfl, ?_⟩
  have h1 : resultTrace (init_accelerometer_config 3 axInit) =
      (ax_write_masked axInit PWR_MGMT_1 1 PWR_MGMT_1_CLKSEL_MASK false).2.trace := rfl
  rw [h1, ax_write_masked_trace]
  have h2 : axInit.regs PWR_MGMT_1 = 0 := rfl
  have h3 : PWR_MGMT_1_CLKSEL_MASK = 7 := rfl
  rw [h2, h3, clksel_write_val]
  rfl

/-- Claim C6 as amended: if the configured full-scale value is not a key of
`FULL_SCALE` (i.e. not one of 2, 4, 8, 16), `init_accelerometer` raises at
the full-scale-configuration step, before any write to `ACCEL_CONFIG`
but after the clock-source masked write to `PWR_MGMT_1` has issued its
register read and register write. -/
theorem init_full_scale_amended_claim (s : AxState) (choice : Int)
    (h : FULL_SCALE choice = none) :
    init_accelerometer_config choice s =
      Except.error (ax_write_masked s PWR_MGMT_1 1 PWR_MGMT_1_CLKSEL_MASK false).2 ∧
    (ax_write_masked s PWR_MGMT_1 1 PWR_MGMT_1_CLKSEL_MASK false).2.trace =
      s.trace ++ [Event.read PWR_MGMT_1,
        Event.write PWR_MGMT_1
          (Int.lor (Int.land (s.regs PWR_MGMT_1) (Int.lnot PWR_MGMT_1_CLKSEL_MASK))
            (Int.land 1 PWR_MGMT_1_CLKSEL_MASK))] := by
  constructor
  · unfold init_accelerometer_config
    rw [h]
  · simp [ax_write_masked, ax_read, ax_write]

/-- Witness for the amended claim C6, at the concrete invalid value 3. -/
theorem init_full_scale_amended_witness :
    init_accelerometer_config 3 axInit =
      Except.error (ax_write_masked axInit PWR_MGMT_1 1 PWR_MGMT_1_CLKSEL_MASK false).2 :=
  (init_full_scale_amended_claim axInit 3 rfl).1

/-- Claim C2: for every register `reg`, `value`, `bitmask` and current
register content `old = s.regs reg`, `ax_write_masked` writes back exactly
`(old & ~bitmask) | (value & bitmask)` to `reg` (and only to `reg`), so
bits of the register outside the bitmask are never altered, regardless of
the bits of `value` outside the bitmask; moreover it returns the post-write
value exactly when `read_after` is set, and its bus trace is the read, the
write of that combined value, and the optional confirmation read. -/
theorem ax_write_masked_claim (s : AxState) (reg : Nat) (value bitmask : Int)
    (read_after : Bool) :
    ((ax_write_masked s reg value bitmask read_after).2.regs reg =
      Int.lor (Int.land (s.regs reg) (Int.lnot bitmask)) (Int.land value bitmask)) ∧
    (∀ r : Nat, r ≠ reg →
      (ax_write_masked s reg value bitmask read_after).2.regs r = s.regs r) ∧
    (∀ i : Nat, Int.testBit bitmask i = false →
      Int.testBit ((ax_write_masked s reg value bitmask read_after).2.regs reg) i =
        Int.testBit (s.regs reg) i) ∧
    ((ax_write_masked s reg value bitmask read_after).1 =
      if read_after then
        some (Int.lor (Int.land (s.regs reg) (Int.lnot bitmask)) (Int.land value bitmask))
      else none) ∧
    ((ax_write_masked s reg value bitmask read_after).2.trace =
      s.trace ++ [Event.read reg,
        Event.write reg
          (Int.lor (Int.land (s.regs reg) (Int.lnot bitmask)) (Int.land value bitmask))] ++
        (if read_after then [Event.read reg] else [])) := by
  have hreg : (ax_write_masked s reg value bitmask read_after).2.regs reg =
      Int.lor (Int.land (s.regs reg) (Int.lnot bitmask)) (Int.land value bitmask) := by
    cases read_after <;> simp [ax_write_masked, ax_read, ax_write]
  refine ⟨hreg, ?_, ?_, ?_, ?_⟩
  · intro r hr
    cases read_after <;> simp [ax_write_masked, ax_read, ax_write, hr]
  · intro i hi
    rw [hreg, Int.testBit_lor, Int.testBit_land, Int.testBit_land, Int.testBit_lnot, hi]
    cases Int.testBit (s.regs reg) i <;> cases Int.testBit value i <;> rfl
  · cases read_after <;> simp [ax_write_masked, ax_read, ax_write]
  · cases read_after <;> simp [ax_write_masked, ax_read, ax_write]

/-- Witness for claim C2 at a concrete device (`regs ≡ 170`), register 28,
`value = 255`, `bitmask = 24`, `read_after = true`. -/
theorem ax_write_masked_witness :
    ((ax_write_masked axW 28 255 24 true).2.regs 28 =
      Int.lor (Int.land 170 (Int.lnot 24)) (Int.land 255 24)) ∧
    (ax_write_masked axW 28 255 24 true).2.regs 5 = 170 ∧
    Int.testBit ((ax_write_masked axW 28 255 24 true).2.regs 28) 1 =
      Int.testBit (170 : Int) 1 := by
  obtain ⟨h1, h2, h3, _, _⟩ := ax_write_masked_claim axW 28 255 24 true
  exact ⟨h1, h2 5 (by decide), h3 1 (by decide)⟩

/-! ### Lemmas about the retry loop -/

theorem base_delay_pos : 0 < base_delay := by norm_num [base_delay]

/-- The delay schedule `base_delay * 2 ^ attempt` is strictly increasing. -/
theorem delays_pairwise_lt (k : Nat) :
    ((List.range k).map fun a => base_delay * 2 ^ a).Pairwise (· < ·) := by
  rw [List.pairwise_map]
  refine (List.pairwise_lt_range k).imp ?_
  intro a b hab
  have h2 : (2 : ℚ) ^ a < 2 ^ b := by
    apply pow_lt_pow_right₀ ?_ hab
    norm_num
  exact mul_lt_mul_of_pos_left h2 base_delay_pos

theorem ax_send_loop_stop (tr : Nat → Bool) (max_attempts j : Nat)
    (h : ¬ j < max_attempts) :
    ax_send_loop tr max_attempts j = ⟨false, 0, []⟩ := by
  rw [ax_send_loop]
  simp [h]

theorem ax_send_loop_of_true (tr : Nat → Bool) (max_attempts j : Nat)
    (h : j < max_attempts) (ht : tr j = true) :
    ax_send_loop tr max_attempts j = ⟨true, 1, []⟩ := by
  rw [ax_send_loop]
  simp [h, ht]

theorem ax_send_loop_of_false (tr : Nat → Bool) (max_attempts j : Nat)
    (h : j < max_attempts) (ht : tr j = false) :
    ax_send_loop tr max_attempts j =
      ⟨(ax_send_loop tr max_attempts (j + 1)).ok,
       (ax_send_loop tr max_attempts (j + 1)).calls + 1,
       base_delay * 2 ^ j :: (ax_send_loop tr max_attempts (j + 1)).delays⟩ := by
  rw [ax_send_loop]
  simp [h, ht]

/-- Shifting the delay schedule by one attempt. -/
theorem delays_range_succ (j k : Nat) :
    base_delay * 2 ^ j :: ((List.range k).map fun a => base_delay * 2 ^ (j + 1 + a)) =
      (List.range (k + 1)).map fun a => base_delay * 2 ^ (j + a) := by
  rw [List.range_succ_eq_map, List.map_cons, List.map_map]
  refine congrArg₂ List.cons ?_ ?_
  · norm_num
  · apply List.map_congr_left
    intro a _
    show base_delay * 2 ^ (j + 1 + a) = base_delay * 2 ^ (j + (a + 1))
    rw [show j + 1 + a = j + (a + 1) from by omega]

/-- If the transport fails on attempts `j, …, j+k-1` and succeeds on
attempt `j+k`, the loop started at `j` returns after `k+1` transport calls
with the exponential delay schedule. -/
theorem ax_send_loop_first_success (tr : Nat → Bool) (max_attempts : Nat) :
    ∀ k j, j + k < max_attempts → (∀ i, i < k → tr (j + i) = false) →
      tr (j + k) = true →
      ax_send_loop tr max_attempts j =
        ⟨true, k + 1, (List.range k).map fun a => base_delay * 2 ^ (j + a)⟩ := by
  intro k
  induction k with
  | zero =>
    intro j hk _ hs
    rw [ax_send_loop_of_true tr max_attempts j (by omega) (by simpa using hs)]
    simp
  | succ k ih =>
    intro j hk hf hs
    have h0 : tr j = false := by simpa using hf 0 (by omega)
    rw [ax_send_loop_of_false tr max_attempts j (by omega) h0]
    have ih' := ih (j + 1) (by omega)
      (fun i hi => by
        have h := hf (i + 1) (by omega)
        rw [show j + 1 + i = j + (i + 1) from by omega]
        exact h)
      (by rw [show j + 1 + k = j + (k + 1) from by omega]; exact hs)
    rw [ih', delays_range_succ j k]

/-- If the transport fails on every attempt from `j` up to `max_attempts`,
the loop performs the remaining `max_attempts - j` transport calls with the
exponential delay schedule and reports failure. -/
theorem ax_send_loop_all_fail (tr : Nat → Bool) (max_attempts : Nat)
    (hf : ∀ i, i < max_attempts → tr i = false) :
    ∀ n j, j + n = max_attempts →
      ax_send_loop tr max_attempts j =
        ⟨false, n, (List.range n).map fun a => base_delay * 2 ^ (j + a)⟩ := by
  intro n
  induction n with
  | zero =>
    intro j hj
    rw [ax_send_loop_stop tr max_attempts j (by omega)]
    simp
  | succ n ih =>
    intro j hj
    have h0 : tr j = false := hf j (by omega)
    rw [ax_send_loop_of_false tr max_attempts j (by omega) h0,
      ih (j + 1) (by omega), delays_range_succ j n]

/-- Claim C1: for every call to `ax_send` with retry cap `max_attempts`:
if the transport fails the first `k < max_attempts` attempts and then
succeeds, the call returns successfully after exactly `k+1` attempts,
delaying `base_delay * 2 ^ attempt` after each failed attempt, so the
delays are strictly increasing; if the transport fails on every attempt,
the call performs exactly `max_attempts` attempts (with the same delay
schedule) and then raises (`ok = false`, the transport-exhausted
`OSError`). -/
theorem ax_send_retry_claim (transport : Nat → Bool) (max_attempts k : Nat) :
    (k < max_attempts → (∀ i, i < k → transport i = false) → transport k = true →
      ax_send transport max_attempts =
        ⟨true, k + 1, (List.range k).map fun a => base_delay * 2 ^ a⟩ ∧
      ((List.range k).map fun a => base_delay * 2 ^ a).Pairwise (· < ·)) ∧
    ((∀ i, i < max_attempts → transport i = false) →
      ax_send transport max_attempts =
        ⟨false, max_attempts,
         (List.range max_attempts).map fun a => base_delay * 2 ^ a⟩ ∧
      ((List.range max_attempts).map fun a => base_delay * 2 ^ a).Pairwise (· < ·)) := by
  constructor
  · intro hk hf hs
    refine ⟨?_, delays_pairwise_lt k⟩
    have h := ax_send_loop_first_success transport max_attempts k 0 (by omega)
      (fun i hi => by simpa using hf i hi) (by simpa using hs)
    simpa [ax_send] using h
  · intro hf
    refine ⟨?_, delays_pairwise_lt max_attempts⟩
    have h := ax_send_loop_all_fail transport max_attempts hf max_attempts 0 (by omega)
    simpa [ax_send] using h

/-- Witness for claim C1: a transport failing attempts 0 and 1 and
succeeding on attempt 2 gives 3 calls and delays `[1/2, 1]`; a transport
that always fails exhausts all 10 attempts. -/
theorem ax_send_retry_witness :
    (ax_send trW 10 = ⟨true, 3, (List.range 2).map fun a => base_delay * 2 ^ a⟩ ∧
      ((List.range 2).map fun a => base_delay * 2 ^ a).Pairwise (· < ·)) ∧
    (ax_send trF 10 = ⟨false, 10, (List.range 10).map fun a => base_delay * 2 ^ a⟩ ∧
      ((List.range 10).map fun a => base_delay * 2 ^ a).Pairwise (· < ·)) := by
  constructor
  · exact (ax_send_retry_claim trW 10 2).1 (by omega)
      (fun i hi => by
        match i, hi with
        | 0, _ => rfl
        | 1, _ => rfl)
      rfl
  · exact (ax_send_retry_claim trF 10 2).2 (fun i _ => rfl)

/-! ### Lemmas about the two's-complement decode -/

/-- On a 16-bit input, `val & 0x8000` keeps exactly the sign bit. -/
theorem nat_and_2pow15 (v : Nat) (hv : v < 65536) :
    v &&& 32768 = if 32768 ≤ v then 32768 else 0 := by
  have h : (32768 : Nat) = 2 ^ 15 := by norm_num
  rw [h, Nat.and_two_pow, Nat.testBit_to_div_mod]
  have h15 : (2 : Nat) ^ 15 = 32768 := by norm_num
  rw [h15]
  by_cases h1 : 32768 ≤ v
  · have hd : v / 32768 = 1 := by omega
    simp [hd, h1]
  · have hd : v / 32768 = 0 := by omega
    simp [hd, h1]

/-- On a 16-bit input, `val & ~0x8000` clears exactly the sign bit. -/
theorem nat_ldiff_2pow15 (v : Nat) (hv : v < 65536) :
    Nat.ldiff v 32768 = v % 32768 := by
  apply Nat.eq_of_testBit_eq
  intro i
  have h : (32768 : Nat) = 2 ^ 15 := by norm_num
  rw [Nat.testBit_ldiff, h, Nat.testBit_two_pow, Nat.testBit_mod_two_pow]
  by_cases hi : i = 15
  · subst hi
    simp
  · by_cases hlt : i < 15
    · simp [hi, hlt, Ne.symm hi]
    · have h16 : v < 2 ^ i := by
        calc v < 65536 := hv
        _ = 2 ^ 16 := by norm_num
        _ ≤ 2 ^ i := Nat.pow_le_pow_right (by norm_num) (by omega)
      simp [hi, hlt, Ne.symm hi, Nat.testBit_lt_two_pow h16]

/-- `twos_complement` at width 16 on a nonnegative input, pushed down to
natural-number bit operations. -/
theorem twos_complement_16_coe (v : Nat) :
    twos_complement (v : Int) 16 =
      -((v &&& 32768 : Nat) : Int) + ((Nat.ldiff v 32768 : Nat) : Int) := by
  show -(Int.land (v : Int) ((2 : Int) ^ (16 - 1))) +
      Int.land (v : Int) (Int.lnot ((2 : Int) ^ (16 - 1))) = _
  have h : (2 : Int) ^ (16 - 1) = ((32768 : Nat) : Int) := by norm_num
  rw [h, int_land_coe_coe, int_land_coe_lnot]

/-- Closed form of the 16-bit decode on `[0, 65535]`. -/
theorem twos_complement_16_char (v : Nat) (hv : v < 65536) :
    twos_complement (v : Int) 16 =
      if 32768 ≤ v then (v : Int) - 65536 else (v : Int) := by
  rw [twos_complement_16_coe, nat_and_2pow15 v hv, nat_ldiff_2pow15 v hv]
  by_cases h : 32768 ≤ v
  · simp only [if_pos h]
    omega
  · simp only [if_neg h]
    omega

/-- Closed form of the 16-bit decode, stated over `Int` inputs. -/
theorem twos_complement_16_char_int (v : Int) (h0 : 0 ≤ v) (h1 : v ≤ 65535) :
    twos_complement v 16 = if 32768 ≤ v then v - 65536 else v := by
  obtain ⟨n, rfl⟩ := Int.eq_ofNat_of_zero_le h0
  have hn : n < 65536 := by omega
  rw [twos_complement_16_char n hn]
  split_ifs <;> omega

/-- Claim C3: the two's-complement decode at width 16 satisfies
`decode 0x0000 = 0`, `decode 0x7FFF = 32767`, `decode 0x8000 = -32768`,
`decode 0xFFFF = -1`; for every raw in `[0, 65535]` it equals
`raw - 65536` when `raw ≥ 32768` and `raw` otherwise, and it is a
bijection from `[0, 65535]` onto `[-32768, 32767]`. -/
theorem twos_complement_claim :
    twos_complement 0x0000 16 = 0 ∧
    twos_complement 0x7FFF 16 = 32767 ∧
    twos_complement 0x8000 16 = -32768 ∧
    twos_complement 0xFFFF 16 = -1 ∧
    (∀ raw : Nat, raw ≤ 65535 →
      twos_complement (raw : Int) 16 =
        if 32768 ≤ raw then (raw : Int) - 65536 else (raw : Int)) ∧
    Set.BijOn (fun v : Int => twos_complement v 16)
      (Set.Icc 0 65535) (Set.Icc (-32768) 32767) := by
  have hchar : ∀ v : Int, 0 ≤ v → v ≤ 65535 →
      twos_complement v 16 = if 32768 ≤ v then v - 65536 else v :=
    twos_complement_16_char_int
  refine ⟨?_, ?_, ?_, ?_, ?_, ?_, ?_, ?_⟩
  · rw [hchar 0 (by norm_num) (by norm_num)]
    norm_num
  · rw [hchar 0x7FFF (by norm_num) (by norm_num)]
    norm_num
  · rw [hchar 0x8000 (by norm_num) (by norm_num)]
    norm_num
  · rw [hchar 0xFFFF (by norm_num) (by norm_num)]
    norm_num
  · intro raw hraw
    exact twos_complement_16_char raw (by omega)
  · -- maps [0, 65535] into [-32768, 32767]
    intro v hv
    simp only [Set.mem_Icc] at hv ⊢
    rw [hchar v hv.1 hv.2]
    split_ifs <;> omega
  · -- injective on [0, 65535]
    intro a ha b hb hab
    simp only [Set.mem_Icc] at ha hb
    simp only [hchar a ha.1 ha.2, hchar b hb.1 hb.2] at hab
    split_ifs at hab <;> omega
  · -- surjective onto [-32768, 32767]
    intro y hy
    simp only [Set.mem_Icc] at hy
    rcases le_or_lt 0 y with h | h
    · refine ⟨y, ?_, ?_⟩
      · simp only [Set.mem_Icc]
        omega
      · show twos_complement y 16 = y
        rw [hchar y h (by omega)]
        rw [if_neg (by omega)]
    · refine ⟨y + 65536, ?_, ?_⟩
      · simp only [Set.mem_Icc]
        omega
      · show twos_complement (y + 65536) 16 = y
        rw [hchar (y + 65536) (by omega) (by omega)]
        rw [if_pos (by omega)]
        omega

/-- Witness for claim C3 at the concrete raw value 40000. -/
theorem twos_complement_witness :
    twos_complement ((40000 : Nat) : Int) 16 =
      if 32768 ≤ (40000 : Nat) then ((40000 : Nat) : Int) - 65536
      else ((40000 : Nat) : Int) :=
  twos_complement_claim.2.2.2.2.1 40000 (by norm_num)

/-! ### Lemmas about the sampler loop -/

theorem read_buf_step_skip (env : Env) (p : Int) (s : RBState)
    (h : ticks_diff (env.ticks s.nTick) s.prev_t < p) :
    read_buf_step env p s =
      ⟨s.prev_t, s.nTick + 1, s.nAx, s.buf, some (env.ticks s.nTick)⟩ := by
  simp [read_buf_step, h]

theorem read_buf_step_capture (env : Env) (p : Int) (s : RBState)
    (h : ¬ ticks_diff (env.ticks s.nTick) s.prev_t < p) :
    read_buf_step env p s =
      ⟨env.ticks s.nTick, s.nTick + 1, s.nAx + 3,
       s.buf ++ quadOf env (env.ticks s.nTick, s.nAx),
       some (env.ticks s.nTick)⟩ := by
  simp [read_buf_step, quadOf, h]

/-- Whatever the branch, one loop iteration assigns the local `t`. -/
theorem read_buf_step_t (env : Env) (p : Int) (s : RBState) :
    (read_buf_step env p s).t = some (env.ticks s.nTick) := by
  by_cases h : ticks_diff (env.ticks s.nTick) s.prev_t < p
  · rw [read_buf_step_skip env p s h]
  · rw [read_buf_step_capture env p s h]

/-- After at least one iteration the local `t` has been assigned. -/
theorem read_buf_iter_t_some (env : Env) (p : Int) :
    ∀ n s, 1 ≤ n → ∃ v, (read_buf_iter env p n s).t = some v := by
  intro n
  induction n with
  | zero =>
    intro s h
    exact absurd h (by omega)
  | succ n ih =>
    intro s _
    rcases Nat.eq_zero_or_pos n with h0 | h0
    · subst h0
      exact ⟨env.ticks s.nTick, read_buf_step_t env p s⟩
    · exact ih (read_buf_step env p s) h0

/-- Running the loop for `m + k` iterations is running it for `m`, then
for `k` more from the state reached. -/
theorem read_buf_iter_add (env : Env) (p : Int) (k : Nat) :
    ∀ m s, read_buf_iter env p (m + k) s =
      read_buf_iter env p k (read_buf_iter env p m s) := by
  intro m
  induction m with
  | zero =>
    intro s
    rw [Nat.zero_add]
    rfl
  | succ m ih =>
    intro s
    rw [Nat.succ_add]
    exact ih (read_buf_step env p s)

/-- Main loop invariant: running the loop appends, for some list of
captured samples (each a pair of the captured timestamp and the index of
its first axis read), the corresponding quadruples to the buffer; at most
one sample is captured per iteration; and the captured timestamps,
prefixed by the incoming `prev_t`, are chained by
`sample_period ≤ ticks_diff`. -/
theorem read_buf_iter_spec (env : Env) (p : Int) :
    ∀ n s, ∃ l : List (Nat × Nat),
      (read_buf_iter env p n s).buf = s.buf ++ l.flatMap (quadOf env) ∧
      l.length ≤ n ∧
      List.Chain (fun a b => p ≤ ticks_diff b a) s.prev_t (l.map Prod.fst) := by
  intro n
  induction n with
  | zero =>
    intro s
    exact ⟨[], by simp [read_buf_iter], by simp, List.Chain.nil⟩
  | succ n ih =>
    intro s
    have hiter : read_buf_iter env p (n + 1) s =
        read_buf_iter env p n (read_buf_step env p s) := rfl
    by_cases h : ticks_diff (env.ticks s.nTick) s.prev_t < p
    · obtain ⟨l, hbuf, hlen, hchain⟩ := ih (read_buf_step env p s)
      rw [read_buf_step_skip env p s h] at hbuf hchain
      refine ⟨l, ?_, by omega, ?_⟩
      · rw [hiter, read_buf_step_skip env p s h]
        exact hbuf
      · exact hchain
    · obtain ⟨l, hbuf, hlen, hchain⟩ := ih (read_buf_step env p s)
      rw [read_buf_step_capture env p s h] at hbuf hchain
      refine ⟨(env.ticks s.nTick, s.nAx) :: l, ?_, by simp; omega, ?_⟩
      · rw [hiter, read_buf_step_capture env p s h, hbuf]
        simp [List.append_assoc]
      · exact List.Chain.cons (by simpa using not_lt.mp h) hchain

/-- If the loop left `t` assigned, `read_buf` returns the final buffer
paired with that timestamp. -/
theorem read_buf_ok_of_t_some (env : Env) (p : Int) (prev_t n : Nat) (v : Nat)
    (hv : (read_buf_iter env p n (read_buf_init prev_t)).t = some v) :
    read_buf env n p prev_t =
      Except.ok ((read_buf_iter env p n (read_buf_init prev_t)).buf, v) := by
  have h : read_buf env n p prev_t =
      match (read_buf_iter env p n (read_buf_init prev_t)).t with
      | some t => Except.ok ((read_buf_iter env p n (read_buf_init prev_t)).buf, t)
      | none => Except.error PyErr.unboundLocalError := rfl
  rw [h, hv]

/-- Each captured sample contributes exactly four buffer entries. -/
theorem quad_flatMap_length (env : Env) :
    ∀ l : List (Nat × Nat), (l.flatMap (quadOf env)).length = 4 * l.length := by
  intro l
  induction l with
  | nil => simp
  | cons a l ih =>
    simp only [List.flatMap_cons, List.length_append, List.length_cons, ih, quadOf,
      List.length_cons, List.length_nil]
    omega

/-- Claim C5: for every batch produced by `read_buf` with minimum period
`P`, every pair of consecutive captured timestamps satisfies the
wraparound-safe relation `P ≤ ticks_diff t_i t_(i-1)`, and the first
captured timestamp satisfies it against the `prev_t` argument: the sampler
never captures two samples closer together than `P`. -/
theorem read_buf_period_claim (env : Env) (p : Int) (prev_t : Nat) (n : Nat)
    (hn : 1 ≤ n) :
    ∃ buf last, read_buf env n p prev_t = Except.ok (buf, last) ∧
      ∃ l : List (Nat × Nat),
        buf = l.flatMap (quadOf env) ∧
        List.Chain (fun a b => p ≤ ticks_diff b a) prev_t (l.map Prod.fst) := by
  obtain ⟨v, hv⟩ := read_buf_iter_t_some env p n (read_buf_init prev_t) hn
  obtain ⟨l, hbuf, _, hchain⟩ := read_buf_iter_spec env p n (read_buf_init prev_t)
  refine ⟨(read_buf_iter env p n (read_buf_init prev_t)).buf, v, ?_, l, ?_, ?_⟩
  · exact read_buf_ok_of_t_some env p prev_t n v hv
  · simpa [read_buf_init] using hbuf
  · simpa [read_buf_init] using hchain

/-- Witness for claim C5: clock advancing 1000 µs per call, period 1000,
two samples requested. -/
theorem read_buf_period_witness :
    ∃ buf last, read_buf envW 2 1000 0 = Except.ok (buf, last) ∧
      ∃ l : List (Nat × Nat),
        buf = l.flatMap (quadOf envW) ∧
        List.Chain (fun a b => (1000 : Int) ≤ ticks_diff b a) 0 (l.map Prod.fst) :=
  read_buf_period_claim envW 1000 0 2 (by omega)

/-- Claim C9: for every call to `read_buf` with `number_of_samples = n ≥ 1`
that returns, the buffer's length is a multiple of 4 and at most `4 * n`;
each captured sample contributes exactly four consecutive entries appended
in the order timestamp, x, y, z (the three axis reads issued at capture,
in order); and the buffer only grows by appends across iterations (the
buffer after `m ≤ n` iterations is an initial segment of the final one). -/
theorem read_buf_shape_claim (env : Env) (p : Int) (prev_t : Nat) (n : Nat)
    (hn : 1 ≤ n) :
    ∃ buf last, read_buf env n p prev_t = Except.ok (buf, last) ∧
      (∃ l : List (Nat × Nat),
        buf = l.flatMap (quadOf env) ∧ l.length ≤ n ∧
        buf.length = 4 * l.length) ∧
      buf.length % 4 = 0 ∧ buf.length ≤ 4 * n ∧
      (∀ m, m ≤ n → ∃ rest,
        (read_buf_iter env p n (read_buf_init prev_t)).buf =
          (read_buf_iter env p m (read_buf_init prev_t)).buf ++ rest) := by
  obtain ⟨v, hv⟩ := read_buf_iter_t_some env p n (read_buf_init prev_t) hn
  obtain ⟨l, hbuf, hlen, _⟩ := read_buf_iter_spec env p n (read_buf_init prev_t)
  have hbuf' : (read_buf_iter env p n (read_buf_init prev_t)).buf =
      l.flatMap (quadOf env) := by
    simpa [read_buf_init] using hbuf
  have hquad := quad_flatMap_length env l
  refine ⟨(read_buf_iter env p n (read_buf_init prev_t)).buf, v, ?_, ⟨l, hbuf', hlen, ?_⟩,
    ?_, ?_, ?_⟩
  · exact read_buf_ok_of_t_some env p prev_t n v hv
  · rw [hbuf', hquad]
  · rw [hbuf', hquad]
    omega
  · rw [hbuf', hquad]
    omega
  · intro m hm
    have hsplit := read_buf_iter_add env p (n - m) m (read_buf_init prev_t)
    rw [show m + (n - m) = n from by omega] at hsplit
    obtain ⟨l', hbuf2, _, _⟩ :=
      read_buf_iter_spec env p (n - m) (read_buf_iter env p m (read_buf_init prev_t))
    exact ⟨l'.flatMap (quadOf env), by rw [hsplit, hbuf2]⟩

/-- Witness for claim C9 at the same concrete environment. -/
theorem read_buf_shape_witness :
    ∃ buf last, read_buf envW 2 1000 0 = Except.ok (buf, last) ∧
      (∃ l : List (Nat × Nat),
        buf = l.flatMap (quadOf envW) ∧ l.length ≤ 2 ∧
        buf.length = 4 * l.length) ∧
      buf.length % 4 = 0 ∧ buf.length ≤ 4 * 2 ∧
      (∀ m, m ≤ 2 → ∃ rest,
        (read_buf_iter envW 1000 2 (read_buf_init 0)).buf =
          (read_buf_iter envW 1000 m (read_buf_init 0)).buf ++ rest) :=
  read_buf_shape_claim envW 1000 0 2 (by omega)

end Mpu9225
